import Mathlib

/-!
# munger5.js : the install-base insight pipeline

A shallow embedding of `src/munger5.js` and the properties of its batch cycle.

* JavaScript values that `JSON.parse` can return are the type `JVal`; the
  coercions the source relies on (`ToString`, `ToNumber`, `==`, `<`, property
  access) are written out following ECMAScript.
* The three builtins whose full definition is outside this repository
  (`JSON.parse`, the string-to-number and the number-to-string conversion) and
  the two object stores (`ecs.getObject`, `s3.putObject`) are fields of `Env`:
  every theorem quantified over `env` holds for any behaviour of them.
* A callback-style function `f(args, callback)` becomes a function of the
  history of requests issued so far that returns the requests it issues and
  what it passes to its callback (`Run.done`), or the requests issued before an
  exception left it uncaught (`Run.threw`). The libraries `async.series` and
  `async.forEachSeries` run their tasks one after the other and stop at the
  first task that reports an error.
-/

namespace Munger

/-! ## JavaScript values -/

/-- A JavaScript number other than NaN: the exact value of a finite double, or
an infinity. `-0` and `+0` are both `fin 0`. -/
inductive JNum where
  | fin (q : ℚ)
  | posInf
  | negInf
deriving DecidableEq

/-- The values `JSON.parse` can return, and `undefined`. An object keeps its
members in source order; a key may occur twice, the last occurrence counts. -/
inductive JVal where
  | undefined
  | null
  | bool (b : Bool)
  | num (n : JNum)
  | str (s : String)
  | arr (xs : List JVal)
  | obj (kvs : List (String × JVal))

/-- One request sent to an object store, or one timer armed with `setTimeout`. -/
inductive Event where
  | getObject (bucket key : String)
  | putObject (bucket key body contentType : String)
  | setTimeout (ms : Nat)
deriving DecidableEq

/-- What `ecs.getObject` passes to its callback: an error, or `data` whose
`Body` is the given text. -/
inductive GetResp where
  | err
  | data (body : String)

/-- What `s3.putObject` passes to its callback: an error, or `data` whose
`ETag` is the given text. -/
inductive PutResp where
  | err
  | data (etag : String)

/-- The surroundings of the program: three ECMAScript builtins and the two
object stores. A store answers as a function of all requests issued so far,
the current one included. -/
structure Env where
  /-- Models `JSON.parse` on a text; `none` when it raises `SyntaxError`. -/
  jsonParse : String → Option JVal
  /-- Models the conversion of a string to a number; `none` is NaN. -/
  stringToNumber : String → Option JNum
  /-- Models the conversion of a number to a string. -/
  numberToString : JNum → String
  /-- Models `ecs.getObject`. -/
  getObject : List Event → GetResp
  /-- Models `s3.putObject`. -/
  putObject : List Event → PutResp

/-- The error value handed to a callback: the error object of a store, or one
of the messages built in `getIBdata`. -/
inductive Err where
  | store
  | message (text : String)
deriving DecidableEq

/-- The outcome of a callback-style function: `done evs a` when it issued the
requests `evs` and then called back with `a`; `threw evs` when an exception
escaped after the requests `evs`, so that its callback is never called and no
further request is issued. -/
inductive Run (α : Type) where
  | done (evs : List Event) (a : α)
  | threw (evs : List Event)
deriving DecidableEq

/-- The requests issued during a run. -/
def Run.events {α : Type} : Run α → List Event
  | .done evs _ => evs
  | .threw evs => evs

/-- Puts the requests `pre`, issued earlier, in front of those of a run. -/
def Run.after {α : Type} (pre : List Event) : Run α → Run α
  | .done evs a => .done (pre ++ evs) a
  | .threw evs => .threw (pre ++ evs)

/-- The own property `name` of an object, if present (last occurrence). -/
def own? : List (String × JVal) → String → Option JVal
  | [], _ => none
  | (k, v) :: rest, name =>
    match own? rest name with
    | some w => some w
    | none => if k = name then some v else none

/-- Reads `o[name]` on the members of an object for a name that
`Object.prototype` does not define: the own property, else `undefined`. -/
def own (kvs : List (String × JVal)) (name : String) : JVal :=
  (own? kvs name).getD .undefined

/-- The text an array element contributes to a join: nothing for `undefined`
and `null`, its string conversion `conv` otherwise. -/
def elemText (x : JVal) (conv : Option String) : Option String :=
  match x with
  | .undefined => some ""
  | .null => some ""
  | _ => conv

mutual
/-- Models `ToString(v)`, as applied by `+` with a string and by `JSON.parse`;
`none` when it raises `TypeError`. An array is joined with commas
(`Array.prototype.toString`); an object without an own `toString` member is
`"[object Object]"`; an object with one (never callable after `JSON.parse`)
has no usable conversion and raises. -/
def toStr (env : Env) : JVal → Option String
  | .undefined => some "undefined"
  | .null => some "null"
  | .bool b => some (if b then "true" else "false")
  | .num n => some (env.numberToString n)
  | .str s => some s
  | .arr xs => joinStr env xs
  | .obj kvs => if (own? kvs "toString").isSome then none else some "[object Object]"
termination_by structural v => v
/-- Models `xs.join(",")`: `undefined` and `null` elements give the empty text. -/
def joinStr (env : Env) : List JVal → Option String
  | [] => some ""
  | x :: rest =>
    match elemText x (toStr env x), joinTail env rest with
    | some a, some b => some (a ++ b)
    | _, _ => none
termination_by structural xs => xs
/-- The rest of a join: every further element preceded by a comma. -/
def joinTail (env : Env) : List JVal → Option String
  | [] => some ""
  | x :: rest =>
    match elemText x (toStr env x), joinTail env rest with
    | some a, some b => some ("," ++ a ++ b)
    | _, _ => none
termination_by structural xs => xs
end

/-- Models `ToNumber(v)`: the outer `none` is a raised `TypeError`, the inner
`none` is NaN. Arrays and objects are converted to a string first. -/
def toNumber (env : Env) : JVal → Option (Option JNum)
  | .undefined => some none
  | .null => some (some (.fin 0))
  | .bool b => some (some (.fin (if b then 1 else 0)))
  | .num n => some (some n)
  | .str s => some (env.stringToNumber s)
  | v => (toStr env v).map env.stringToNumber

/-- Decides `x < 1` for a number. -/
def JNum.ltOne : JNum → Bool
  | .fin q => decide (q < 1)
  | .posInf => false
  | .negInf => true

/-- Models `v < 1`; `none` when the conversion raises. NaN compares false. -/
def lessThanOne (env : Env) (v : JVal) : Option Bool :=
  (toNumber env v).map fun n =>
    match n with
    | none => false
    | some x => x.ltOne

/-- Models `v == s` for a string `s` (loose equality): `undefined` and `null`
equal no string, a boolean or number is compared with the number the string
converts to, a string is compared as text, an array or object is converted to
a string first; `none` when that conversion raises. -/
def looseEq (env : Env) (v : JVal) (s : String) : Option Bool :=
  match v with
  | .undefined => some false
  | .null => some false
  | .bool b => some (decide (env.stringToNumber s = some (.fin (if b then 1 else 0))))
  | .num n => some (decide (env.stringToNumber s = some n))
  | .str t => some (decide (t = s))
  | .arr xs => (toStr env (.arr xs)).map fun t => decide (t = s)
  | .obj kvs => (toStr env (.obj kvs)).map fun t => decide (t = s)

/-- Models `v[name]` for a name that is neither `length`, nor an index, nor a
member of a builtin prototype (here `rows`, `records`, `State`, `gduns`):
`none` is the `TypeError` raised on `undefined` and `null`; only an object can
have such a member. -/
def getField (v : JVal) (name : String) : Option JVal :=
  match v with
  | .undefined => none
  | .null => none
  | .obj kvs => some (own kvs name)
  | _ => some .undefined

/-- The number of UTF-16 code units of a string, its JavaScript `length`. -/
def utf16Length (s : String) : Nat :=
  s.data.foldl (fun n c => n + (if c.val < 0x10000 then 1 else 2)) 0

/-- The number of rounds of `for (i = 0; i < len; i++)` for a numeric `len`
(NaN as `none`); the result `none` means that the condition never fails. -/
def loopCount : Option JNum → Option Nat
  | none => some 0
  | some (.fin q) => some (if q ≤ 0 then 0 else (q.num.toNat + q.den - 1) / q.den)
  | some .posInf => none
  | some .negInf => some 0

/-- Collects the results of the rounds of a loop: `none` as soon as one round
raises. -/
def collect {α : Type} : List (Option α) → Option (List α)
  | [] => some []
  | none :: _ => none
  | some a :: rest => (collect rest).map fun as => a :: as

/-- The values `v[0][name]`, `v[1][name]`, ... that the loop
`for (i = 0; i < v.length; i++) { ... v[i][name] ... }` reads, or `none` when
the loop raises `TypeError`. The loop body has no other effect than a local
one, so the loop is determined by this list.

* `undefined`, `null`: reading `length` raises.
* boolean, number: `length` is `undefined` and `0 < undefined` is false.
* string: `length` code units, each a string without the member `name`.
* array: one round per element.
* object: `length` is an own member or `undefined`; the bound is its number
  value. When the bound is infinite some index is not a member of the (finite)
  object, and reading `name` from `undefined` raises. -/
def fieldsOf (env : Env) (v : JVal) (name : String) : Option (List JVal) :=
  match v with
  | .undefined => none
  | .null => none
  | .bool _ => some []
  | .num _ => some []
  | .str s => some (List.replicate (utf16Length s) .undefined)
  | .arr xs => collect (xs.map fun x => getField x name)
  | .obj kvs =>
    match toNumber env (own kvs "length") with
    | none => none
    | some len =>
      match loopCount len with
      | none => none
      | some n => collect ((List.range n).map fun i => getField (own kvs (Nat.repr i)) name)

/-! ## The program -/

/-- The install base item that is counted (`var thingToCount`). -/
def thingToCount : String := "State"

/-- The munger number (`var mungerNumber`). -/
def mungerNumber : String := "4"

/-- The bucket of the ECS object store (`var ecsBucket`). -/
def ecsBucket : String := "pacnwinstalls"

/-- The bucket of the s3 object store (`var awsBucket`). -/
def awsBucket : String := "munger-insights"

/-- The master list object read by `cycleThru` (`var customerListSource`). -/
def customerListSource : String := "PNWandNCAcustomers.json"

/-- One item of `thingToCount`. -/
structure Item where
  ItemName : String
  OpsConsoleName : String
  suffixCode : String
deriving DecidableEq

/-- The list of all `thingToCount` options. -/
def getThingToCountList : List Item :=
  [ { ItemName := "WASHINGTON", OpsConsoleName := "WA", suffixCode := "1" },
    { ItemName := "OREGON", OpsConsoleName := "OR", suffixCode := "2" },
    { ItemName := "IDAHO", OpsConsoleName := "ID", suffixCode := "3" },
    { ItemName := "ARIZONA", OpsConsoleName := "AZ", suffixCode := "4" },
    { ItemName := "CALIFORNIA", OpsConsoleName := "CA", suffixCode := "5" } ]

/-- The count of the rows `installBaseData.rows[i]` whose member `thingToCount`
is loosely equal (`==`) to `thingToCountItem.OpsConsoleName`; `none` when
reading the rows or comparing raises. -/
def extractInsight (env : Env) (thingToCountItem : Item) (installBaseData : JVal) :
    Option Nat :=
  match getField installBaseData "rows" with
  | none => none
  | some rows =>
    match fieldsOf env rows thingToCount with
    | none => none
    | some fields =>
      (collect (fields.map fun f => looseEq env f thingToCountItem.OpsConsoleName)).map
        fun hits => hits.count true

/-- The payload object of `getIBdata`: `JSON.parse(data.Body)` gives
`dataPayload`, and `JSON.parse(dataPayload)`, which converts its argument to a
string, gives `payloadObject`; `none` when one of the steps raises. -/
def decodePayload (env : Env) (body : String) : Option JVal :=
  match env.jsonParse body with
  | none => none
  | some dataPayload =>
    match toStr env dataPayload with
    | none => none
    | some text => env.jsonParse text

/-- The `try` block of `getIBdata` on a fetched body: what is passed to the
callback. Every exception raised inside is caught and reported as the
`unexpected install base JSON format` error. -/
def insightOfBody (env : Env) (thingToCountItem : Item) (key body : String) :
    Except Err Nat :=
  match decodePayload env body with
  | none => .error (.message ("unexpected install base JSON format in " ++ key))
  | some payloadObject =>
    match getField payloadObject "records" with
    | none => .error (.message ("unexpected install base JSON format in " ++ key))
    | some records =>
      match lessThanOne env records with
      | none => .error (.message ("unexpected install base JSON format in " ++ key))
      | some true => .error (.message ("no JSON payload in " ++ key))
      | some false =>
        match extractInsight env thingToCountItem payloadObject with
        | none => .error (.message ("unexpected install base JSON format in " ++ key))
        | some insight => .ok insight

/-- Pulls the install base data of a GDUN and calls back with the insight or
an error. `hist` holds the requests issued before. The string concatenation
`gdun + ...` raises when `gdun` has no string conversion. -/
def getIBdata (env : Env) (thingToCountItem : Item) (gdun : JVal) (hist : List Event) :
    Run (Except Err Nat) :=
  match toStr env gdun with
  | none => .threw []
  | some g =>
    let key := g ++ ".json"
    let req := Event.getObject ecsBucket key
    match env.getObject (hist ++ [req]) with
    | .err => .done [req] (.error .store)
    | .data body => .done [req] (insightOfBody env thingToCountItem key body)

/-- The text of `insightToStore.toString()` for a count: decimal digits below
`10^21`, the exponent form of the runtime from there on. -/
def insightText (env : Env) (insightToStore : Nat) : String :=
  if insightToStore < 10 ^ 21 then Nat.repr insightToStore
  else env.numberToString (.fin insightToStore)

/-- The key under which an insight is stored:
`gdun + "." + suffixCode + "." + mungerNumber`. -/
def insightKey (g : String) (thingToCountItem : Item) : String :=
  g ++ "." ++ thingToCountItem.suffixCode ++ "." ++ mungerNumber

/-- The stored body, `JSON.stringify({"answer": text})`, for the text of a
number, which needs no escaping. -/
def insightBody (text : String) : String :=
  "\x7b\"answer\":\"" ++ text ++ "\"\x7d"

/-- Stores the insight in s3 and calls back with the parsed ETag or an error.
`JSON.parse(data.ETag)` is outside any `try`. -/
def storeInsight (env : Env) (thingToCountItem : Item) (gdun : JVal) (insightToStore : Nat)
    (hist : List Event) : Run (Except Err JVal) :=
  match toStr env gdun with
  | none => .threw []
  | some g =>
    let req := Event.putObject awsBucket (insightKey g thingToCountItem)
      (insightBody (insightText env insightToStore)) "json"
    match env.putObject (hist ++ [req]) with
    | .err => .done [req] (.error .store)
    | .data etag =>
      match env.jsonParse etag with
      | none => .threw [req]
      | some eTag => .done [req] (.ok eTag)

/-- Models `async.forEachSeries(arr, iterator, callback)`: the iterator runs on
the elements in order, each after the previous one has called back; the first
error stops the iteration and is passed to the final callback. -/
def forEachSeries {α : Type} (iterator : α → List Event → Run (Option Err)) :
    List α → List Event → Run (Option Err)
  | [], _ => .done [] none
  | x :: rest, hist =>
    match iterator x hist with
    | .threw evs => .threw evs
    | .done evs (some err) => .done evs (some err)
    | .done evs none => (forEachSeries iterator rest (hist ++ evs)).after evs

/-- The `async.series` of the two tasks of `processGDUN` for one GDUN, up to
the argument of its final callback: `getIBdata`, then, unless that reported an
error, `storeInsight` on the insight kept in `insightToStore`. -/
def gdunSeries (env : Env) (thingToCountItem : Item) (gdun : JVal) (hist : List Event) :
    Run (Option Err) :=
  match getIBdata env thingToCountItem gdun hist with
  | .threw evs => .threw evs
  | .done evs (.error err) => .done evs (some err)
  | .done evs (.ok insight) =>
    Run.after evs
      (match storeInsight env thingToCountItem gdun insight (hist ++ evs) with
       | .threw evs2 => .threw evs2
       | .done evs2 (.error err) => .done evs2 (some err)
       | .done evs2 (.ok _) => .done evs2 none)

/-- Iterates through all customer GDUNs for one item; the final callback of
each series calls `callback3()` without an error in both branches. -/
def processGDUN (env : Env) (thingToCountItem : Item) (GDUNlist : List JVal)
    (hist : List Event) : Run (Option Err) :=
  forEachSeries
    (fun gdun h =>
      match gdunSeries env thingToCountItem gdun h with
      | .threw evs => .threw evs
      | .done evs _ => .done evs none)
    GDUNlist hist

/-- Launches `processGDUN` for each item of `getThingToCountList`. -/
def processThingToCount (env : Env) (GDUNlist : List JVal) (hist : List Event) :
    Run (Option Err) :=
  forEachSeries (fun thingToCountItem h => processGDUN env thingToCountItem GDUNlist h)
    getThingToCountList hist

/-- Gets the master list of customer GDUNs. `JSON.parse(data.Body)` and the
loop over `dataPayload` are outside any `try`. -/
def getCustomerList (env : Env) (source : String) (hist : List Event) :
    Run (Except Err (List JVal)) :=
  let req := Event.getObject ecsBucket source
  match env.getObject (hist ++ [req]) with
  | .err => .done [req] (.error .store)
  | .data body =>
    match env.jsonParse body with
    | none => .threw [req]
    | some dataPayload =>
      match fieldsOf env dataPayload "gduns" with
      | none => .threw [req]
      | some GDUNS => .done [req] (.ok GDUNS)

/-- The `async.series` of `cycleThru`, up to the argument of its final
callback: the master list, then, unless that reported an error, the items. -/
def cycleSeries (env : Env) (hist : List Event) : Run (Option Err) :=
  match getCustomerList env customerListSource hist with
  | .threw evs => .threw evs
  | .done evs (.error err) => .done evs (some err)
  | .done evs (.ok GDUNarray) => (processThingToCount env GDUNarray (hist ++ evs)).after evs

/-- One cycle: the series, then the final callback, which in both branches
arms the timer that starts the next cycle. -/
def cycleThru (env : Env) (hist : List Event) : Run Unit :=
  match cycleSeries env hist with
  | .threw evs => .threw evs
  | .done evs _ => .done (evs ++ [Event.setTimeout 86400000]) ()

/-! ## Observations on a run -/

/-- Requests to read an object. -/
def isFetch : Event → Bool
  | .getObject _ _ => true
  | _ => false

/-- Requests to write an object. -/
def isPut : Event → Bool
  | .putObject _ _ _ _ => true
  | _ => false

/-- The read requests among the events, in order. -/
def fetches (evs : List Event) : List Event := evs.filter isFetch

/-- The write requests among the events, in order. -/
def puts (evs : List Event) : List Event := evs.filter isPut

/-- The read request that `getIBdata` issues for the customer `g`. -/
def fetchOf (g : String) : Event := .getObject ecsBucket (g ++ ".json")

/-- The write request that `storeInsight` issues for customer `g`, item `d`
and the insight `n`. -/
def putOf (env : Env) (g : String) (d : Item) (n : Nat) : Event :=
  .putObject awsBucket (insightKey g d) (insightBody (insightText env n)) "json"

/-- The master list request of `cycleThru`. -/
def masterFetch : Event := .getObject ecsBucket customerListSource

/-- Every successful answer of `s3.putObject` carries an ETag that
`JSON.parse` accepts, so that `storeInsight` always calls back. -/
def etagsDecode (env : Env) : Prop :=
  ∀ h etag, env.putObject h = .data etag → env.jsonParse etag ≠ none

/-- A row is plain when it is not `null` and its member `thingToCount` is a
string, `null` or absent. -/
def plainRow (row : JVal) : Bool :=
  match getField row thingToCount with
  | some (.str _) => true
  | some .undefined => true
  | some .null => true
  | _ => false

/-- Follows the specification (exact string equality): the member
`thingToCount` of the row is a string and is the text `s`. -/
def fieldIs (row : JVal) (s : String) : Bool :=
  match getField row thingToCount with
  | some (.str t) => decide (t = s)
  | _ => false

/-- Follows the specification: the number of rows whose dimension field equals
`d.OpsConsoleName` under exact string equality. -/
def countExact (d : Item) (rows : List JVal) : Nat :=
  rows.countP fun row => fieldIs row d.OpsConsoleName

/-! ## The scheduler -/

/-- The delays of the timers armed by the events. -/
def armedTimers (evs : List Event) : List Nat :=
  evs.filterMap fun e =>
    match e with
    | .setTimeout ms => some ms
    | _ => none

/-- The state of the process: the requests issued so far, the number of cycles
in progress, the delays of the timers armed and not yet fired, and whether the
process is still alive (no uncaught exception so far). -/
structure Proc where
  hist : List Event
  running : Nat
  timers : List Nat
  alive : Bool
deriving DecidableEq

/-- What can happen to the process: the cycle in progress reaches its end, or
the armed timer number `i` fires. -/
inductive Tick where
  | cycleEnds
  | timerFires (i : Nat)
deriving DecidableEq

/-- One step of the process. A cycle in progress runs to its end: `cycleThru`
either reaches its final callback, which arms the timers found among its
events, or raises an uncaught exception, which ends the process. A timer that
fires runs its callback, `cycleThru()`, which starts a cycle. Nothing else
starts a cycle or arms a timer. -/
def step (env : Env) (s : Proc) : Tick → Option Proc
  | .cycleEnds =>
    if s.alive = true ∧ 0 < s.running then
      match cycleThru env s.hist with
      | .done evs _ =>
        some { hist := s.hist ++ evs, running := s.running - 1,
               timers := s.timers ++ armedTimers evs, alive := true }
      | .threw evs =>
        some { hist := s.hist ++ evs, running := s.running,
               timers := s.timers ++ armedTimers evs, alive := false }
    else none
  | .timerFires i =>
    if s.alive = true ∧ i < s.timers.length then
      some { s with timers := s.timers.eraseIdx i, running := s.running + 1 }
    else none

/-- The text of the install base object of customer `1000`: three rows, two of
them in Washington. -/
def sampleRowsText : String :=
  "\x7b\"records\":3,\"rows\":[\x7b\"State\":\"WA\"\x7d,\x7b\"State\":\"WA\"\x7d,\x7b\"State\":\"OR\"\x7d]\x7d"

/-- The value of `sampleRowsText`. -/
def sampleRows : JVal :=
  .obj [("records", .num (.fin 3)),
        ("rows", .arr [.obj [("State", .str "WA")], .obj [("State", .str "WA")],
                       .obj [("State", .str "OR")]])]

/-- The text of an install base object with an empty `rows` array and no
`records` member. -/
def emptyRowsText : String := "\x7b\"rows\":[]\x7d"

/-- The value of `emptyRowsText`. -/
def emptyRows : JVal := .obj [("rows", .arr [])]

/-- The text of a master list with the customers `1000` and `2000`. -/
def sampleListText : String := "[\x7b\"gduns\":\"1000\"\x7d,\x7b\"gduns\":\"2000\"\x7d]"

/-- The value of `sampleListText`. -/
def sampleList : JVal :=
  .arr [.obj [("gduns", .str "1000")], .obj [("gduns", .str "2000")]]

/-- The stored body of customer `1000`: `sampleRowsText` encoded once more as
a JSON string, the format `getIBdata` decodes twice. -/
def sampleRowsBody : String :=
  "\"\x7b\\\"records\\\":3,\\\"rows\\\":[\x7b\\\"State\\\":\\\"WA\\\"\x7d,\x7b\\\"State\\\":\\\"WA\\\"\x7d,\x7b\\\"State\\\":\\\"OR\\\"\x7d]\x7d\""

/-- The stored body of customer `3000`: `emptyRowsText` encoded once more as a
JSON string. -/
def emptyRowsBody : String := "\"\x7b\\\"rows\\\":[]\x7d\""

/-- An excerpt of `JSON.parse`: its value on the texts of the sample
environment; any other text met there (`<html>`) is not JSON. -/
def sampleParse (text : String) : Option JVal :=
  if text = sampleRowsBody then some (.str sampleRowsText)
  else if text = sampleRowsText then some sampleRows
  else if text = emptyRowsBody then some (.str emptyRowsText)
  else if text = emptyRowsText then some emptyRows
  else if text = sampleListText then some sampleList
  else if text = "\"9b2cf535f27731c974343645a3985328\"" then
    some (.str "9b2cf535f27731c974343645a3985328")
  else none

/-- The ECS store of the sample environment, by the key of the request: the
master list, customer `1000` with three rows, customer `3000` with no rows,
customer `4000` with a body that is not JSON; any other object (customer
`2000`) is missing. -/
def sampleGet (hist : List Event) : GetResp :=
  match hist.getLast? with
  | some (.getObject _ key) =>
    if key = customerListSource then .data sampleListText
    else if key = "1000.json" then .data sampleRowsBody
    else if key = "3000.json" then .data emptyRowsBody
    else if key = "4000.json" then .data "<html>"
    else .err
  | _ => .err

/-- A sample environment. Its s3 store accepts every put. The two number
conversions are not consulted on the sample data (no number is compared with
a string or printed there). -/
def sampleEnv : Env where
  jsonParse := sampleParse
  stringToNumber := fun _ => none
  numberToString := fun _ => "NaN"
  getObject := sampleGet
  putObject := fun _ => .data "\"9b2cf535f27731c974343645a3985328\""

/-- The sample environment with every object of the ECS store missing. -/
def offlineEnv : Env := { sampleEnv with getObject := fun _ => .err }

/-- The sample environment with a master list object that is not JSON. -/
def brokenListEnv : Env := { sampleEnv with getObject := fun _ => .data "<html>" }

/-- The Washington item of the catalog. -/
def washington : Item :=
  { ItemName := "WASHINGTON", OpsConsoleName := "WA", suffixCode := "1" }

/-! ## Lemmas -/

theorem toStr_str (env : Env) (g : String) : toStr env (.str g) = some g := rfl

theorem fetches_append (a b : List Event) : fetches (a ++ b) = fetches a ++ fetches b := by
  simp [fetches]

theorem puts_append (a b : List Event) : puts (a ++ b) = puts a ++ puts b := by
  simp [puts]

/-- When the iterator calls back without an error on every element of the
list, so does the iteration, and its events are those of the rounds, one
after the other. -/
theorem forEachSeries_done {α β : Type} (iterator : α → List Event → Run (Option Err))
    (f : β → α) (Q : β → List Event → Prop)
    (hiter : ∀ x h, ∃ evs, iterator (f x) h = .done evs none ∧ Q x evs) :
    ∀ (xs : List β) (hist : List Event), ∃ evss : List (List Event),
      forEachSeries iterator (xs.map f) hist = .done evss.flatten none ∧
        List.Forall₂ Q xs evss := by
  intro xs
  induction xs with
  | nil => intro hist; exact ⟨[], rfl, List.Forall₂.nil⟩
  | cons x rest ih =>
    intro hist
    obtain ⟨evs, h1, hq⟩ := hiter x hist
    obtain ⟨evss, h2, hall⟩ := ih (hist ++ evs)
    refine ⟨evs :: evss, ?_, List.Forall₂.cons hq hall⟩
    simp [forEachSeries, h1, h2, Run.after]

theorem flatMap_single {β γ : Type} (f : β → γ) (xs : List β) :
    (xs.flatMap fun x => [f x]) = xs.map f := by
  induction xs with
  | nil => rfl
  | cons x rest ih => simpa [List.flatMap_cons] using ih

theorem fetches_flatten {β : Type} (F : β → List Event) :
    ∀ (xs : List β) (evss : List (List Event)),
      List.Forall₂ (fun x evs => fetches evs = F x) xs evss →
        fetches evss.flatten = xs.flatMap F := by
  intro xs evss h
  induction h with
  | nil => rfl
  | cons hx _ ih => simp [fetches_append, hx, ih]

theorem puts_flatten_le {β : Type} (k : Nat) :
    ∀ (xs : List β) (evss : List (List Event)),
      List.Forall₂ (fun _ evs => (puts evs).length ≤ k) xs evss →
        (puts evss.flatten).length ≤ xs.length * k := by
  intro xs evss h
  induction h with
  | nil => simp [puts]
  | cons hx _ ih =>
    simp only [List.flatten_cons, puts_append, List.length_append, List.length_cons]
    have : ∀ a b : Nat, (a + 1) * b = b + a * b := fun a b => by ring
    rw [this]
    exact Nat.add_le_add hx ih

/-- The series of one customer with a string id, case by case. -/
theorem gdunSeries_str (env : Env) (item : Item) (g : String) (hist : List Event) :
    gdunSeries env item (.str g) hist =
      match env.getObject (hist ++ [fetchOf g]) with
      | .err => .done [fetchOf g] (some .store)
      | .data body =>
        match insightOfBody env item (g ++ ".json") body with
        | .error e => .done [fetchOf g] (some e)
        | .ok n =>
          match env.putObject (hist ++ [fetchOf g] ++ [putOf env g item n]) with
          | .err => .done [fetchOf g, putOf env g item n] (some .store)
          | .data etag =>
            match env.jsonParse etag with
            | none => .threw [fetchOf g, putOf env g item n]
            | some _ => .done [fetchOf g, putOf env g item n] none := by
  unfold gdunSeries getIBdata
  simp only [toStr_str, fetchOf]
  cases hget : env.getObject (hist ++ [Event.getObject ecsBucket (g ++ ".json")]) with
  | err => rfl
  | data body =>
    simp only []
    cases hins : insightOfBody env item (g ++ ".json") body with
    | error e => rfl
    | ok n =>
      simp only [storeInsight, toStr_str, putOf]
      cases hput : env.putObject (hist ++ [Event.getObject ecsBucket (g ++ ".json")] ++
          [Event.putObject awsBucket (insightKey g item) (insightBody (insightText env n))
            "json"]) with
      | err => rfl
      | data etag =>
        simp only []
        cases hp : env.jsonParse etag with
        | none => rfl
        | some v => rfl

/-- The events of one customer for one item: one read request, then at most
one write request, and no error is left for the iteration. -/
theorem gdunSeries_shape (env : Env) (hE : etagsDecode env) (item : Item) (g : String)
    (hist : List Event) :
    ∃ evs r, gdunSeries env item (.str g) hist = .done evs r ∧
      fetches evs = [fetchOf g] ∧ (puts evs).length ≤ 1 := by
  rw [gdunSeries_str]
  cases hget : env.getObject (hist ++ [fetchOf g]) with
  | err => exact ⟨_, _, rfl, rfl, by simp [puts, isPut, fetchOf]⟩
  | data body =>
    simp only []
    cases hins : insightOfBody env item (g ++ ".json") body with
    | error e => exact ⟨_, _, rfl, rfl, by simp [puts, isPut, fetchOf]⟩
    | ok n =>
      simp only []
      cases hput : env.putObject (hist ++ [fetchOf g] ++ [putOf env g item n]) with
      | err => exact ⟨_, _, rfl, rfl, by simp [puts, isPut, fetchOf, putOf]⟩
      | data etag =>
        simp only []
        cases hp : env.jsonParse etag with
        | none => exact absurd hp (hE _ _ hput)
        | some v => exact ⟨_, _, rfl, rfl, by simp [puts, isPut, fetchOf, putOf]⟩

/-- The rounds of `processGDUN` over customers with string ids. -/
theorem processGDUN_rounds (env : Env) (hE : etagsDecode env) (item : Item)
    (customers : List String) (hist : List Event) :
    ∃ evss : List (List Event),
      processGDUN env item (customers.map JVal.str) hist = .done evss.flatten none ∧
        List.Forall₂ (fun g evs => fetches evs = [fetchOf g] ∧ (puts evs).length ≤ 1)
          customers evss := by
  unfold processGDUN
  apply forEachSeries_done
  intro g h
  obtain ⟨evs, r, h1, h2, h3⟩ := gdunSeries_shape env hE item g h
  exact ⟨evs, by simp [h1], h2, h3⟩

/-- The events of `processGDUN` over customers with string ids. -/
theorem processGDUN_shape (env : Env) (hE : etagsDecode env) (item : Item)
    (customers : List String) (hist : List Event) :
    ∃ evs, processGDUN env item (customers.map JVal.str) hist = .done evs none ∧
      fetches evs = customers.map fetchOf ∧ (puts evs).length ≤ customers.length := by
  obtain ⟨evss, h1, h2⟩ := processGDUN_rounds env hE item customers hist
  refine ⟨_, h1, ?_, ?_⟩
  · have := fetches_flatten (fun g => [fetchOf g]) customers evss
      (h2.imp fun _ _ h => h.1)
    rw [this]
    exact flatMap_single fetchOf customers
  · simpa using puts_flatten_le 1 customers evss (h2.imp fun _ _ h => h.2)

/-- The events of `processThingToCount` over customers with string ids. -/
theorem processThingToCount_shape (env : Env) (hE : etagsDecode env)
    (customers : List String) (hist : List Event) :
    ∃ evs, processThingToCount env (customers.map JVal.str) hist = .done evs none ∧
      fetches evs = getThingToCountList.flatMap (fun _ => customers.map fetchOf) ∧
      (puts evs).length ≤ getThingToCountList.length * customers.length := by
  have key := forEachSeries_done
    (fun thingToCountItem h => processGDUN env thingToCountItem (customers.map JVal.str) h)
    id
    (fun (_ : Item) evs => fetches evs = customers.map fetchOf ∧
      (puts evs).length ≤ customers.length)
    (fun item h => processGDUN_shape env hE item customers h)
    getThingToCountList hist
  obtain ⟨evss, h1, h2⟩ := key
  rw [List.map_id] at h1
  refine ⟨_, h1, ?_, ?_⟩
  · exact fetches_flatten (fun _ => customers.map fetchOf) _ evss (h2.imp fun _ _ h => h.1)
  · exact puts_flatten_le customers.length _ evss (h2.imp fun _ _ h => h.2)

/-- C1 (failure isolation). In every environment whose successful puts carry a
decodable ETag (so that every `getIBdata` and `storeInsight` call reports
success or an error), for every customer list and every item `processGDUN`
calls back without an error and its read requests are exactly those of the
customer list, in order; over one cycle `processThingToCount` calls back
without an error and its read requests are the customer list, in order,
repeated once per catalog item in catalog order. -/
theorem failure_isolation (env : Env) (hE : etagsDecode env) (customers : List String)
    (hist : List Event) :
    (∀ item : Item, ∃ evs,
      processGDUN env item (customers.map JVal.str) hist = .done evs none ∧
        fetches evs = customers.map fetchOf) ∧
    (∃ evs, processThingToCount env (customers.map JVal.str) hist = .done evs none ∧
      fetches evs = getThingToCountList.flatMap (fun _ => customers.map fetchOf)) := by
  constructor
  · intro item
    obtain ⟨evs, h1, h2, _⟩ := processGDUN_shape env hE item customers hist
    exact ⟨evs, h1, h2⟩
  · obtain ⟨evs, h1, h2, _⟩ := processThingToCount_shape env hE customers hist
    exact ⟨evs, h1, h2⟩

theorem sampleEnv_etagsDecode : etagsDecode sampleEnv := by
  intro h etag heq
  simp only [sampleEnv] at heq
  injection heq with heq
  subst heq
  intro hc
  have hv : sampleEnv.jsonParse "\"9b2cf535f27731c974343645a3985328\"" =
      some (.str "9b2cf535f27731c974343645a3985328") := by rfl
  rw [hv] at hc
  exact Option.noConfusion hc

/-- Witness of C1: the sample environment, customers `1000` and `2000`. -/
theorem failure_isolation_witness :
    etagsDecode sampleEnv ∧
    ((∀ item : Item, ∃ evs,
      processGDUN sampleEnv item (["1000", "2000"].map JVal.str) [] = .done evs none ∧
        fetches evs = ["1000", "2000"].map fetchOf) ∧
    (∃ evs, processThingToCount sampleEnv (["1000", "2000"].map JVal.str) [] = .done evs none ∧
      fetches evs = getThingToCountList.flatMap (fun _ => ["1000", "2000"].map fetchOf))) :=
  ⟨sampleEnv_etagsDecode, failure_isolation sampleEnv sampleEnv_etagsDecode ["1000", "2000"] []⟩

/-! ## C2 : `extractInsight` -/

theorem collect_plain (env : Env) (d : Item) :
    ∀ rows : List JVal, (∀ row ∈ rows, plainRow row = true) →
      ∃ fields hits, collect (rows.map fun x => getField x thingToCount) = some fields ∧
        collect (fields.map fun f => looseEq env f d.OpsConsoleName) = some hits ∧
        hits.count true = countExact d rows := by
  intro rows
  induction rows with
  | nil => intro _; exact ⟨[], [], rfl, rfl, rfl⟩
  | cons row rest ih =>
    intro h
    obtain ⟨fields, hits, h1, h2, h3⟩ := ih fun r hr => h r (List.mem_cons_of_mem _ hr)
    have hrow := h row (List.mem_cons_self _ _)
    have step : ∀ (f : JVal) (b : Bool), getField row thingToCount = some f →
        looseEq env f d.OpsConsoleName = some b → fieldIs row d.OpsConsoleName = b →
        ∃ fields hits,
          collect ((row :: rest).map fun x => getField x thingToCount) = some fields ∧
          collect (fields.map fun f => looseEq env f d.OpsConsoleName) = some hits ∧
          hits.count true = countExact d (row :: rest) := by
      intro f b hf hb hfb
      refine ⟨f :: fields, b :: hits, ?_, ?_, ?_⟩
      · simp [collect, hf, h1]
      · simp [collect, hb, h2]
      · simp only [countExact] at h3 ⊢
        rw [List.countP_cons, hfb, ← h3, List.count_cons]
        cases b <;> simp
    unfold plainRow at hrow
    cases hf : getField row thingToCount with
    | none => simp [hf] at hrow
    | some f =>
      cases f with
      | undefined => exact step _ false hf rfl (by simp [fieldIs, hf])
      | null => exact step _ false hf rfl (by simp [fieldIs, hf])
      | str t => exact step _ (decide (t = d.OpsConsoleName)) hf rfl (by simp [fieldIs, hf])
      | bool b => simp [hf] at hrow
      | num n => simp [hf] at hrow
      | arr xs => simp [hf] at hrow
      | obj kvs => simp [hf] at hrow

/-- C2 (counterexample). A row whose `State` member is the array `["WA"]` is
counted for Washington, although that member is not the string `"WA"`: the
comparison `==` of the source converts the array to the string `"WA"`. -/
theorem extractInsight_coerces :
    extractInsight sampleEnv washington
        (.obj [("rows", .arr [.obj [("State", .arr [.str "WA"])]])]) = some 1 ∧
      countExact washington [.obj [("State", .arr [.str "WA"])]] = 0 := by
  decide

/-- On a record set with plain rows `extractInsight` counts by exact string
equality. -/
theorem extractInsight_plain (env : Env) (d : Item) (kvs : List (String × JVal))
    (rows : List JVal) (hrows : own kvs "rows" = .arr rows)
    (hplain : ∀ row ∈ rows, plainRow row = true) :
    extractInsight env d (.obj kvs) = some (countExact d rows) := by
  obtain ⟨fields, hits, h1, h2, h3⟩ := collect_plain env d rows hplain
  have hg : getField (.obj kvs) "rows" = some (.arr rows) := by
    simp only [getField, hrows]
  unfold extractInsight
  rw [hg]
  simp only [fieldsOf]
  rw [h1]
  simp only []
  rw [h2]
  simp only [Option.map_some', h3]

/-- C2 (amended). For every item `d` and every record set whose rows are plain
(the `State` member is a string, `null` or absent), `extractInsight` returns
the number of rows whose `State` member is the string `d.OpsConsoleName`, by
exact string equality; in particular it returns 0 when there are no rows. -/
theorem extractInsight_exact (env : Env) (d : Item) (kvs : List (String × JVal))
    (rows : List JVal) (hrows : own kvs "rows" = .arr rows)
    (hplain : ∀ row ∈ rows, plainRow row = true) :
    extractInsight env d (.obj kvs) = some (countExact d rows) ∧
      (rows = [] → extractInsight env d (.obj kvs) = some 0) := by
  have main := extractInsight_plain env d kvs rows hrows hplain
  refine ⟨main, ?_⟩
  intro hnil
  rw [main, hnil]
  rfl

/-- Witness of C2 (amended): the three sample rows and the Washington item. -/
theorem extractInsight_exact_witness :
    own [("records", JVal.num (.fin 3)),
         ("rows", JVal.arr [.obj [("State", .str "WA")], .obj [("State", .str "WA")],
                            .obj [("State", .str "OR")]])] "rows" =
      .arr [.obj [("State", .str "WA")], .obj [("State", .str "WA")],
            .obj [("State", .str "OR")]] ∧
    (∀ row ∈ [JVal.obj [("State", .str "WA")], .obj [("State", .str "WA")],
              .obj [("State", .str "OR")]], plainRow row = true) ∧
    extractInsight sampleEnv washington sampleRows = some 2 :=
  ⟨rfl, by decide,
   (extractInsight_exact sampleEnv washington
      [("records", JVal.num (.fin 3)),
       ("rows", JVal.arr [.obj [("State", .str "WA")], .obj [("State", .str "WA")],
                          .obj [("State", .str "OR")]])]
      [.obj [("State", .str "WA")], .obj [("State", .str "WA")], .obj [("State", .str "OR")]]
      rfl (by decide)).1⟩

/-! ## C3 : `storeInsight` -/

/-- C3. For every customer id `g`, item `d` and insight `n` below `10^21`
(every count is), `storeInsight` issues exactly one put, to the key
`g + "." + d.suffixCode + "." + mungerNumber`, with the body
`{"answer":"<decimal digits of n>"}`. -/
theorem storeInsight_put (env : Env) (d : Item) (g : String) (n : Nat) (hist : List Event)
    (hn : n < 10 ^ 21) :
    (storeInsight env d (.str g) n hist).events =
      [Event.putObject awsBucket (g ++ "." ++ d.suffixCode ++ "." ++ mungerNumber)
        ("\x7b\"answer\":\"" ++ Nat.repr n ++ "\"\x7d") "json"] := by
  simp only [storeInsight, toStr_str, insightKey, insightBody, insightText, if_pos hn]
  cases env.putObject (hist ++
      [Event.putObject awsBucket (g ++ "." ++ d.suffixCode ++ "." ++ mungerNumber)
        ("\x7b\"answer\":\"" ++ Nat.repr n ++ "\"\x7d") "json"]) with
  | err => rfl
  | data etag =>
    simp only []
    cases env.jsonParse etag <;> rfl

/-- Witness of C3: customer `1000` with the rows WA, WA, OR and the Washington
item give the insight 2, stored under `1000.1.4` as `{"answer":"2"}`; customer
`2000`, whose object is missing, gets no put. -/
theorem storeInsight_put_witness :
    2 < 10 ^ 21 ∧
    (storeInsight sampleEnv washington (.str "1000") 2 []).events =
      [Event.putObject "munger-insights" "1000.1.4" "\x7b\"answer\":\"2\"\x7d" "json"] ∧
    processGDUN sampleEnv washington [.str "1000", .str "2000"] [] =
      .done [Event.getObject "pacnwinstalls" "1000.json",
             Event.putObject "munger-insights" "1000.1.4" "\x7b\"answer\":\"2\"\x7d" "json",
             Event.getObject "pacnwinstalls" "2000.json"] none :=
  ⟨by decide, storeInsight_put sampleEnv washington "1000" 2 [] (by decide), by decide⟩

/-! ## C4, C5 : payloads that are not stored -/

/-- The iteration over a single customer. -/
theorem processGDUN_single (env : Env) (d : Item) (g : String) (hist : List Event) :
    processGDUN env d [.str g] hist =
      match gdunSeries env d (.str g) hist with
      | .threw evs => .threw evs
      | .done evs _ => .done evs none := by
  unfold processGDUN
  simp only [forEachSeries]
  cases gdunSeries env d (.str g) hist with
  | threw evs => rfl
  | done evs r => simp [Run.after, forEachSeries]

/-- What `getIBdata` does for a customer with a string id. -/
theorem getIBdata_str (env : Env) (d : Item) (g : String) (hist : List Event) :
    getIBdata env d (.str g) hist =
      match env.getObject (hist ++ [fetchOf g]) with
      | .err => .done [fetchOf g] (.error .store)
      | .data body => .done [fetchOf g] (insightOfBody env d (g ++ ".json") body) := rfl

/-- C4. When the body fetched for a customer fails to decode, or decodes to a
payload whose `records` member compares less than 1, `getIBdata` calls back
with an error (no insight is delivered), the series of that customer ends
with that error after the read request alone, and `processGDUN` issues no put
for the pair. -/
theorem malformed_not_stored (env : Env) (d : Item) (g : String) (hist : List Event)
    (body : String) (hget : env.getObject (hist ++ [fetchOf g]) = .data body)
    (hbad : decodePayload env body = none ∨
      ∃ p r, decodePayload env body = some p ∧ getField p "records" = some r ∧
        lessThanOne env r = some true) :
    (∃ err, getIBdata env d (.str g) hist = .done [fetchOf g] (.error err) ∧
      gdunSeries env d (.str g) hist = .done [fetchOf g] (some err)) ∧
    processGDUN env d [.str g] hist = .done [fetchOf g] none ∧
    puts [fetchOf g] = [] := by
  have hins : ∃ err, insightOfBody env d (g ++ ".json") body = .error err := by
    unfold insightOfBody
    rcases hbad with h | ⟨p, r, h1, h2, h3⟩
    · rw [h]; exact ⟨_, rfl⟩
    · rw [h1]; simp only [h2, h3]; exact ⟨_, rfl⟩
  obtain ⟨err, herr⟩ := hins
  have hser : gdunSeries env d (.str g) hist = .done [fetchOf g] (some err) := by
    rw [gdunSeries_str, hget]; simp only [herr]
  refine ⟨⟨err, ?_, hser⟩, ?_, rfl⟩
  · rw [getIBdata_str, hget]; simp only [herr]
  · rw [processGDUN_single, hser]

/-- Witness of C4: customer `4000` of the sample environment, whose body is
not JSON. -/
theorem malformed_not_stored_witness :
    sampleEnv.getObject ([] ++ [fetchOf "4000"]) = .data "<html>" ∧
    (decodePayload sampleEnv "<html>" = none ∨
      ∃ p r, decodePayload sampleEnv "<html>" = some p ∧ getField p "records" = some r ∧
        lessThanOne sampleEnv r = some true) ∧
    ((∃ err, getIBdata sampleEnv washington (.str "4000") [] =
        .done [fetchOf "4000"] (.error err) ∧
      gdunSeries sampleEnv washington (.str "4000") [] = .done [fetchOf "4000"] (some err)) ∧
    processGDUN sampleEnv washington [.str "4000"] [] = .done [fetchOf "4000"] none ∧
    puts [fetchOf "4000"] = []) :=
  ⟨rfl, Or.inl rfl,
   malformed_not_stored sampleEnv washington "4000" [] "<html>" rfl (Or.inl rfl)⟩

/-- C5 (counterexample). Customer `3000` of the sample environment has a body
that decodes to `{"rows":[]}`: `getIBdata` calls back with the insight 0, not
with an error, and `{"answer":"0"}` is stored under `3000.1.4`. -/
theorem empty_rows_published :
    sampleEnv.getObject [fetchOf "3000"] = .data emptyRowsBody ∧
    decodePayload sampleEnv emptyRowsBody = some (.obj [("rows", .arr [])]) ∧
    getIBdata sampleEnv washington (.str "3000") [] = .done [fetchOf "3000"] (.ok 0) ∧
    processGDUN sampleEnv washington [.str "3000"] [] =
      .done [Event.getObject "pacnwinstalls" "3000.json",
             Event.putObject "munger-insights" "3000.1.4" "\x7b\"answer\":\"0\"\x7d" "json"] none :=
  ⟨rfl, rfl, rfl, by decide⟩

/-- C5 (amended). When the body fetched for a customer decodes to an object
with an empty `rows` array, the outcome follows the `records` member: if it
compares less than 1, or the comparison raises, `getIBdata` calls back with
an error and no put is issued for the pair; otherwise `getIBdata` delivers the
insight 0 and `{"answer":"0"}` is put under the key of the pair. -/
theorem empty_rows_outcome (env : Env) (d : Item) (g : String) (hist : List Event)
    (body : String) (kvs : List (String × JVal))
    (hget : env.getObject (hist ++ [fetchOf g]) = .data body)
    (hdec : decodePayload env body = some (.obj kvs))
    (hrows : own kvs "rows" = .arr []) :
    (lessThanOne env (own kvs "records") = some true →
      getIBdata env d (.str g) hist =
        .done [fetchOf g] (.error (.message ("no JSON payload in " ++ (g ++ ".json")))) ∧
      processGDUN env d [.str g] hist = .done [fetchOf g] none) ∧
    (lessThanOne env (own kvs "records") = none →
      getIBdata env d (.str g) hist =
        .done [fetchOf g]
          (.error (.message ("unexpected install base JSON format in " ++ (g ++ ".json")))) ∧
      processGDUN env d [.str g] hist = .done [fetchOf g] none) ∧
    (lessThanOne env (own kvs "records") = some false →
      getIBdata env d (.str g) hist = .done [fetchOf g] (.ok 0) ∧
      (processGDUN env d [.str g] hist).events =
        [fetchOf g, Event.putObject awsBucket (insightKey g d) "\x7b\"answer\":\"0\"\x7d" "json"]) := by
  have hx : extractInsight env d (.obj kvs) = some 0 :=
    extractInsight_plain env d kvs [] hrows (fun _ h => absurd h (List.not_mem_nil _))
  have hf : getField (.obj kvs) "records" = some (own kvs "records") := rfl
  refine ⟨?_, ?_, ?_⟩
  · intro hlt
    have hins : insightOfBody env d (g ++ ".json") body =
        .error (.message ("no JSON payload in " ++ (g ++ ".json"))) := by
      unfold insightOfBody; rw [hdec]; simp only [hf, hlt]
    constructor
    · rw [getIBdata_str, hget]; simp only [hins]
    · rw [processGDUN_single, gdunSeries_str, hget]; simp only [hins]
  · intro hlt
    have hins : insightOfBody env d (g ++ ".json") body =
        .error (.message ("unexpected install base JSON format in " ++ (g ++ ".json"))) := by
      unfold insightOfBody; rw [hdec]; simp only [hf, hlt]
    constructor
    · rw [getIBdata_str, hget]; simp only [hins]
    · rw [processGDUN_single, gdunSeries_str, hget]; simp only [hins]
  · intro hlt
    have hins : insightOfBody env d (g ++ ".json") body = .ok 0 := by
      unfold insightOfBody; rw [hdec]; simp only [hf, hlt, hx]
    constructor
    · rw [getIBdata_str, hget]; simp only [hins]
    · rw [processGDUN_single, gdunSeries_str, hget]
      simp only [hins]
      have hp : putOf env g d 0 =
          Event.putObject awsBucket (insightKey g d) "\x7b\"answer\":\"0\"\x7d" "json" := by
        simp only [putOf, insightText]
        rfl
      rw [hp]
      cases env.putObject (hist ++ [fetchOf g] ++
          [Event.putObject awsBucket (insightKey g d) "\x7b\"answer\":\"0\"\x7d" "json"]) with
      | err => rfl
      | data etag =>
        simp only []
        cases env.jsonParse etag <;> rfl

/-- Witness of C5 (amended): customer `3000` of the sample environment. -/
theorem empty_rows_outcome_witness :
    sampleEnv.getObject ([] ++ [fetchOf "3000"]) = .data emptyRowsBody ∧
    decodePayload sampleEnv emptyRowsBody = some (.obj [("rows", .arr [])]) ∧
    own [("rows", JVal.arr [])] "rows" = .arr [] ∧
    lessThanOne sampleEnv (own [("rows", JVal.arr [])] "records") = some false ∧
    getIBdata sampleEnv washington (.str "3000") [] = .done [fetchOf "3000"] (.ok 0) ∧
    (processGDUN sampleEnv washington [.str "3000"] []).events =
      [fetchOf "3000",
       Event.putObject awsBucket (insightKey "3000" washington) "\x7b\"answer\":\"0\"\x7d" "json"] :=
  ⟨rfl, rfl, rfl, rfl,
   (empty_rows_outcome sampleEnv washington "3000" [] emptyRowsBody [("rows", JVal.arr [])]
      rfl rfl rfl).2.2 rfl⟩

/-! ## C6, C7 : the master list -/

/-- C6. When the fetch of the master list reports an error, `getCustomerList`
calls back with it, the series of `cycleThru` stops there (no install base
object is read and nothing is put: `processThingToCount` is not run), and the
final callback still arms the timer of the next cycle. -/
theorem master_list_error (env : Env) (hist : List Event)
    (hget : env.getObject (hist ++ [masterFetch]) = .err) :
    getCustomerList env customerListSource hist = .done [masterFetch] (.error .store) ∧
    cycleSeries env hist = .done [masterFetch] (some .store) ∧
    cycleThru env hist = .done [masterFetch, Event.setTimeout 86400000] () := by
  have h1 : getCustomerList env customerListSource hist =
      .done [masterFetch] (.error .store) := by
    simp only [getCustomerList, masterFetch] at hget ⊢
    rw [hget]
  have h2 : cycleSeries env hist = .done [masterFetch] (some .store) := by
    simp only [cycleSeries, h1]
  refine ⟨h1, h2, ?_⟩
  simp only [cycleThru, h2]
  rfl

/-- Witness of C6: the sample environment with its ECS store unreachable. -/
theorem master_list_error_witness :
    offlineEnv.getObject ([] ++ [masterFetch]) = .err ∧
    (getCustomerList offlineEnv customerListSource [] = .done [masterFetch] (.error .store) ∧
    cycleSeries offlineEnv [] = .done [masterFetch] (some .store) ∧
    cycleThru offlineEnv [] = .done [masterFetch, Event.setTimeout 86400000] ()) :=
  ⟨rfl, master_list_error offlineEnv [] rfl⟩

/-- C7 (the code at the failing input). The master list is fetched
successfully but its body `<html>` is not JSON: `JSON.parse` raises outside
any `try`, `getCustomerList` never calls back, and `cycleThru` never reaches
its final callback, so no timer is armed. -/
theorem master_list_not_json :
    brokenListEnv.getObject [masterFetch] = .data "<html>" ∧
    brokenListEnv.jsonParse "<html>" = none ∧
    getCustomerList brokenListEnv customerListSource [] = .threw [masterFetch] ∧
    cycleThru brokenListEnv [] = .threw [masterFetch] :=
  ⟨rfl, rfl, rfl, rfl⟩

/-! ## C8 : the number of requests of a cycle -/

theorem suffixCode_length (d : Item) (hd : d ∈ getThingToCountList) :
    d.suffixCode.length = 1 := by
  simp only [getThingToCountList, List.mem_cons, List.mem_singleton, List.not_mem_nil,
    or_false] at hd
  rcases hd with h | h | h | h | h <;> (subst h; rfl)

theorem item_of_suffixCode (d1 d2 : Item) (h1 : d1 ∈ getThingToCountList)
    (h2 : d2 ∈ getThingToCountList) (heq : d1.suffixCode = d2.suffixCode) : d1 = d2 := by
  simp only [getThingToCountList, List.mem_cons, List.mem_singleton, List.not_mem_nil,
    or_false] at h1 h2
  rcases h1 with h | h | h | h | h <;> rcases h2 with k | k | k | k | k <;>
    subst h <;> subst k <;> first | rfl | (exact absurd heq (by decide))

/-- Two keys built from suffix codes of the same length agree only when the
customer ids and the suffix codes agree. -/
theorem insightKey_inj (g1 g2 : String) (d1 d2 : Item)
    (hlen : d1.suffixCode.length = d2.suffixCode.length)
    (hkey : insightKey g1 d1 = insightKey g2 d2) :
    g1 = g2 ∧ d1.suffixCode = d2.suffixCode := by
  have hdata := congrArg String.data hkey
  simp only [insightKey, String.data_append] at hdata
  rw [List.append_assoc, List.append_assoc, List.append_assoc,
      List.append_assoc, List.append_assoc, List.append_assoc] at hdata
  have hlen2 : (['.'] ++ (d1.suffixCode.data ++ (['.'] ++ mungerNumber.data))).length =
      (['.'] ++ (d2.suffixCode.data ++ (['.'] ++ mungerNumber.data))).length := by
    simp only [List.length_append]
    have : d1.suffixCode.data.length = d2.suffixCode.data.length := hlen
    omega
  obtain ⟨hg, hrest⟩ := List.append_inj' hdata hlen2
  have hrest2 := List.append_cancel_left hrest
  have hs := List.append_cancel_right hrest2
  exact ⟨String.ext hg, String.ext hs⟩

/-- C10. The suffix codes of the catalog are pairwise distinct, and two result
keys built from customer ids (any strings) and catalog items are equal only
when the customer ids are equal and the items are equal. -/
theorem keys_never_collide (g1 g2 : String) (d1 d2 : Item)
    (h1 : d1 ∈ getThingToCountList) (h2 : d2 ∈ getThingToCountList)
    (hkey : g1 ++ "." ++ d1.suffixCode ++ "." ++ mungerNumber =
      g2 ++ "." ++ d2.suffixCode ++ "." ++ mungerNumber) :
    (getThingToCountList.map Item.suffixCode).Nodup ∧ g1 = g2 ∧ d1 = d2 := by
  have hlen : d1.suffixCode.length = d2.suffixCode.length := by
    rw [suffixCode_length d1 h1, suffixCode_length d2 h2]
  obtain ⟨hg, hs⟩ := insightKey_inj g1 g2 d1 d2 hlen hkey
  exact ⟨by decide, hg, item_of_suffixCode d1 d2 h1 h2 hs⟩

/-- Witness of C10: customer `a.1` with the Washington item, twice. -/
theorem keys_never_collide_witness :
    washington ∈ getThingToCountList ∧
    "a.1" ++ "." ++ washington.suffixCode ++ "." ++ mungerNumber =
      "a.1" ++ "." ++ washington.suffixCode ++ "." ++ mungerNumber ∧
    ((getThingToCountList.map Item.suffixCode).Nodup ∧ "a.1" = "a.1" ∧
      washington = washington) :=
  ⟨by decide, rfl,
   keys_never_collide "a.1" "a.1" washington washington (by decide) (by decide) rfl⟩

end Munger
